import Mathlib

/-!
Shallow embedding of the Cross-Source Financial Disclosure Monitor's
claim-verification core (parser, rule-based normalizer, drift detector,
semantic search / support scorer) together with theorems settling the
specification claims.  Text is modelled as `List Char` (Python `str`),
machine reals appearing in the sources as `ℚ`, and fallible operations
as `Except`/`Option`.
-/

set_option maxHeartbeats 1000000

namespace CrossSource

/-- ASCII whitespace, as recognized by Python `str.strip()` and the regex
class `\s` on the ASCII range occurring in the data. -/
def isPySpace (c : Char) : Bool :=
  (c == ' ') || (c == '\t') || (c == '\n') || (c == '\r') ||
  (c == Char.ofNat 11) || (c == Char.ofNat 12)

/-- Python `str.strip()`: drop whitespace from both ends. -/
def pyStrip (s : List Char) : List Char :=
  ((s.dropWhile isPySpace).reverse.dropWhile isPySpace).reverse

/-- Split off the part before the first occurrence of `sep`; `none` when
`sep` does not occur.  Building block for Python `str.split(sep, maxsplit)`. -/
def breakFirst (sep : Char) : List Char → Option (List Char × List Char)
  | [] => none
  | c :: cs =>
    if c = sep then some ([], cs)
    else
      match breakFirst sep cs with
      | none => none
      | some (a, b) => some (c :: a, b)

/-- Python `s.split(sep, maxsplit)` for a one-character separator:
at most `maxsplit` splits, remainder kept whole. -/
def splitMax (sep : Char) : Nat → List Char → List (List Char)
  | 0, s => [s]
  | Nat.succ n, s =>
    match breakFirst sep s with
    | none => [s]
    | some (a, b) => a :: splitMax sep n b

/-- Result of `parse_normalized_terms` (the dict returned in `parser.py`). -/
structure ParsedTerm where
  entity : List Char
  claim_type : List Char
  scope : List Char
  key : List Char
  value : List Char
deriving DecidableEq

/-- `isErr e` holds exactly on `Except.error`. -/
def isErr {ε : Type} {α : Type} : Except ε α → Bool
  | .error _ => true
  | .ok _ => false

/-- `parser.py` `parse_normalized_terms`: split into at most 4 pipe-bounded
parts, require exactly 4, split the 4th on the first `=`, strip every field.
Python `ValueError` is modelled as `Except.error`. -/
def parse_normalized_terms (term : List Char) : Except (List Char) ParsedTerm :=
  if term = [] then .error (("Input term must be a non-empty string").data)
  else
    match splitMax '|' 3 term with
    | [entity, claim_type, scope, kv] =>
      match breakFirst '=' kv with
      | none => .error (("Invalid key-value format. Expected KEY=VALUE.").data)
      | some (key, value) =>
        .ok ⟨pyStrip entity, pyStrip claim_type, pyStrip scope, pyStrip key, pyStrip value⟩
    | _ => .error (("Invalid term format. Expected 4 parts.").data)

/-- `normalizer.py` `build_claim`: the f-string
`ENTITY|CLAIM_TYPE|SCOPE|KEY=VALUE`. -/
def build_claim (entity claim_type scope key value : List Char) : List Char :=
  entity ++ ('|' :: (claim_type ++ ('|' :: (scope ++ ('|' :: (key ++ ('=' :: value)))))))

theorem breakFirst_append (sep : Char) (a b : List Char) (h : sep ∉ a) :
    breakFirst sep (a ++ sep :: b) = some (a, b) := by
  induction a with
  | nil => simp [breakFirst]
  | cons c cs ih =>
    have hc : ¬ c = sep := by
      intro he
      exact h (by simp [he])
    have hcs : sep ∉ cs := fun hm => h (List.mem_cons_of_mem _ hm)
    simp [breakFirst, hc, ih hcs]

theorem breakFirst_eq_none_iff (sep : Char) (l : List Char) :
    breakFirst sep l = none ↔ sep ∉ l := by
  induction l with
  | nil => simp [breakFirst]
  | cons c cs ih =>
    by_cases hc : c = sep
    · subst hc
      simp [breakFirst]
    · cases hb : breakFirst sep cs with
      | none =>
        simp only [breakFirst, if_neg hc, hb]
        constructor
        · intro _
          intro hm
          rcases List.mem_cons.mp hm with h1 | h2
          · exact hc h1.symm
          · exact (ih.mp hb) h2
        · intro _
          trivial
      | some p =>
        simp only [breakFirst, if_neg hc, hb]
        constructor
        · intro hcontra
          exact absurd hcontra (by simp)
        · intro hm
          exfalso
          have : sep ∈ cs := by
            by_contra hn
            rw [← ih] at hn
            rw [hb] at hn
            exact Option.noConfusion hn
          exact hm (List.mem_cons_of_mem _ this)

theorem pyStrip_nil : pyStrip [] = [] := by
  simp [pyStrip]

theorem splitMax_zero (sep : Char) (s : List Char) : splitMax sep 0 s = [s] := rfl

theorem splitMax_succ_some (sep : Char) (n : Nat) (s a b : List Char)
    (h : breakFirst sep s = some (a, b)) :
    splitMax sep (n + 1) s = a :: splitMax sep n b := by
  simp [splitMax, h]

/-- Claim C2: for every well-formed quintuple (entity, type, scope, key, value) —
identity fields free of the pipe character, key free of the equals sign, all
fields free of leading/trailing whitespace — parsing the built claim string
returns exactly the original five fields, including when value contains a pipe
or an equals sign. -/
theorem c2_parse_build_roundtrip
    (entity claim_type scope key value : List Char)
    (he : '|' ∉ entity) (ht : '|' ∉ claim_type) (hs : '|' ∉ scope)
    (hk1 : '|' ∉ key) (hk2 : '=' ∉ key)
    (hse : pyStrip entity = entity) (hst : pyStrip claim_type = claim_type)
    (hss : pyStrip scope = scope) (hsk : pyStrip key = key)
    (hsv : pyStrip value = value) :
    parse_normalized_terms (build_claim entity claim_type scope key value) =
      .ok ⟨entity, claim_type, scope, key, value⟩ := by
  have hne : build_claim entity claim_type scope key value ≠ [] := by
    unfold build_claim
    intro hcontra
    rcases entity with _ | ⟨c, cs⟩ <;> simp_all
  have hb1 : breakFirst '|'
      (entity ++ '|' :: (claim_type ++ '|' :: (scope ++ '|' :: (key ++ '=' :: value)))) =
      some (entity, claim_type ++ '|' :: (scope ++ '|' :: (key ++ '=' :: value))) :=
    breakFirst_append '|' entity _ he
  have hb2 : breakFirst '|' (claim_type ++ '|' :: (scope ++ '|' :: (key ++ '=' :: value))) =
      some (claim_type, scope ++ '|' :: (key ++ '=' :: value)) :=
    breakFirst_append '|' claim_type _ ht
  have hb3 : breakFirst '|' (scope ++ '|' :: (key ++ '=' :: value)) =
      some (scope, key ++ '=' :: value) :=
    breakFirst_append '|' scope _ hs
  have h1 : splitMax '|' 3 (build_claim entity claim_type scope key value) =
      [entity, claim_type, scope, key ++ '=' :: value] := by
    unfold build_claim
    rw [splitMax_succ_some '|' 2 _ _ _ hb1, splitMax_succ_some '|' 1 _ _ _ hb2,
        splitMax_succ_some '|' 0 _ _ _ hb3, splitMax_zero]
  have h2 : breakFirst '=' (key ++ '=' :: value) = some (key, value) :=
    breakFirst_append '=' key value hk2
  unfold parse_normalized_terms
  rw [if_neg hne, h1]
  simp only [h2, hse, hst, hss, hsk, hsv]

/-- Witness for C2: a concrete round trip whose value contains both a pipe
and an equals sign. -/
theorem c2_parse_build_roundtrip_witness :
    parse_normalized_terms
        (build_claim (("MSFT").data) (("CONFIG").data) (("GLOBAL").data)
          (("URL").data) (("https://example.com?q=1|r=2").data)) =
      .ok ⟨("MSFT").data, ("CONFIG").data, ("GLOBAL").data,
        ("URL").data, ("https://example.com?q=1|r=2").data⟩ :=
  c2_parse_build_roundtrip _ _ _ _ _ (by decide) (by decide) (by decide)
    (by decide) (by decide) (by decide) (by decide) (by decide) (by decide)
    (by decide)

/-- Claim C9: `parse_normalized_terms` does not require fields to be non-empty
after trimming: the input made of three pipes and an equals sign parses to five
empty fields, and in general parsing fails exactly when the input is empty,
splits into fewer than four pipe-bounded segments, or has a fourth segment
lacking an equals sign. -/
theorem c9_parse_error_conditions :
    parse_normalized_terms (("|||=").data) = .ok ⟨[], [], [], [], []⟩
    ∧ ∀ term : List Char,
        isErr (parse_normalized_terms term) = true ↔
          (term = [] ∨ ¬ (splitMax '|' 3 term).length = 4 ∨
            '=' ∉ (splitMax '|' 3 term).getD 3 []) := by
  constructor
  · rfl
  · intro term
    by_cases h0 : term = []
    · simp [parse_normalized_terms, h0, isErr]
    · rcases hsp : splitMax '|' 3 term with _ | ⟨a, _ | ⟨b, _ | ⟨c, _ | ⟨d, _ | ⟨e, rest⟩⟩⟩⟩⟩
      · simp [parse_normalized_terms, h0, hsp, isErr]
      · simp [parse_normalized_terms, h0, hsp, isErr]
      · simp [parse_normalized_terms, h0, hsp, isErr]
      · simp [parse_normalized_terms, h0, hsp, isErr]
      · cases hb : breakFirst '=' d with
        | none =>
          have hd : '=' ∉ d := (breakFirst_eq_none_iff '=' d).mp hb
          simp [parse_normalized_terms, h0, hsp, hb, isErr, List.getD, hd]
        | some p =>
          have hd : '=' ∈ d := by
            by_contra hn
            rw [← breakFirst_eq_none_iff '=' d] at hn
            rw [hb] at hn
            exact Option.noConfusion hn
          simp [parse_normalized_terms, h0, hsp, hb, isErr, List.getD, hd]
      · simp [parse_normalized_terms, h0, hsp, isErr]

/-! ## rules.py : normalize_period -/

/-- Scan for the first two consecutive ASCII digits; this is where the lazy
`.*?` of the period regex stops, with the two-digit alternative `\d{2}` of
`(\d{2}|\d{4})` tried first (so the captured year group always has exactly
two characters). -/
def findTwoDigits : List Char → Option (Char × Char)
  | c1 :: c2 :: rest =>
    if c1.isDigit && c2.isDigit then some (c1, c2) else findTwoDigits (c2 :: rest)
  | _ => none

/-- `re.search` of `Q([1-4]).*?(\d{2}|\d{4})` with `re.I`: the leftmost start
position holding `Q`/`q` followed by a quarter digit such that two consecutive
digits occur later; returns (quarter, year-digit-1, year-digit-2). -/
def periodSearch : List Char → Option (Char × Char × Char)
  | c :: d :: rest =>
    if (c == 'Q' || c == 'q') &&
        (d == '1' || d == '2' || d == '3' || d == '4') then
      match findTwoDigits rest with
      | some (y1, y2) => some (d, y1, y2)
      | none => periodSearch (d :: rest)
    else periodSearch (d :: rest)
  | _ => none

/-- `rules.py` `normalize_period`: regex search, then 2-digit years are
prefixed with `20`, producing `FY{year}-Q{n}`. -/
def normalize_period (raw : List Char) : Except (List Char) (List Char) :=
  match periodSearch raw with
  | none => .error (("Unrecognized period format: ").data ++ raw)
  | some (q, y1, y2) =>
    let year := [y1, y2]
    let year4 := if year.length = 2 then '2' :: '0' :: year else year
    .ok (("FY").data ++ year4 ++ ("-Q").data ++ [q])

/-- Claim C1 (settled as a code bug): the docstring of `normalize_period`
promises that `Q2 2024`, `FY24 Q2`, `2024-Q2` and `Q2 FY24` all normalize to
`FY2024-Q2`, but the code maps `Q2 2024` to `FY2020-Q2` (the lazy `.*?`
together with the `\d{2}`-first alternation captures the first two digits
`20` of the four-digit year) and raises for `FY24 Q2` and `2024-Q2` (the
pattern requires the year after the quarter); only `Q2 FY24` behaves as
documented. -/
theorem c1_normalize_period_examples :
    normalize_period (("Q2 FY24").data) = .ok (("FY2024-Q2").data)
    ∧ normalize_period (("Q2 2024").data) = .ok (("FY2020-Q2").data)
    ∧ isErr (normalize_period (("FY24 Q2").data)) = true
    ∧ isErr (normalize_period (("2024-Q2").data)) = true :=
  ⟨rfl, rfl, rfl, rfl⟩

/-! ## Exact decimal fractions

Machine reals occurring in the program (float values of claims, time deltas in
seconds, similarity scores) are modelled as exact decimal fractions
`m / 10 ^ e`.  Arithmetic and comparisons are implemented on the integer
representation (so that concrete runs of the embedded code evaluate inside the
kernel) and related to `ℚ` through `Dec.toRat`. -/

structure Dec where
  m : Int
  e : Nat
deriving DecidableEq

/-- The rational value of a decimal fraction. -/
def Dec.toRat (x : Dec) : ℚ := (x.m : ℚ) / (10 : ℚ) ^ x.e

/-- Subtraction on decimal fractions. -/
def Dec.sub (x y : Dec) : Dec := ⟨x.m * 10 ^ y.e - y.m * 10 ^ x.e, x.e + y.e⟩

/-- Addition on decimal fractions. -/
def Dec.add (x y : Dec) : Dec := ⟨x.m * 10 ^ y.e + y.m * 10 ^ x.e, x.e + y.e⟩

/-- Multiplication on decimal fractions. -/
def Dec.mul (x y : Dec) : Dec := ⟨x.m * y.m, x.e + y.e⟩

/-- Absolute value on decimal fractions. -/
def Dec.abs (x : Dec) : Dec := ⟨|x.m|, x.e⟩

/-- Strict comparison, by cross multiplication (denominators are positive). -/
def Dec.blt (x y : Dec) : Bool := decide (x.m * (10 : Int) ^ y.e < y.m * (10 : Int) ^ x.e)

theorem Dec.blt_iff (x y : Dec) : Dec.blt x y = true ↔ x.toRat < y.toRat := by
  unfold Dec.blt Dec.toRat
  rw [decide_eq_true_eq]
  rw [div_lt_div_iff (by positivity) (by positivity)]
  constructor
  · intro h
    exact_mod_cast h
  · intro h
    exact_mod_cast h

theorem Dec.toRat_sub (x y : Dec) : (Dec.sub x y).toRat = x.toRat - y.toRat := by
  unfold Dec.sub Dec.toRat
  have hx : ((10 : ℚ) ^ x.e) ≠ 0 := by positivity
  have hy : ((10 : ℚ) ^ y.e) ≠ 0 := by positivity
  field_simp
  push_cast
  ring

theorem Dec.toRat_add (x y : Dec) : (Dec.add x y).toRat = x.toRat + y.toRat := by
  unfold Dec.add Dec.toRat
  have hx : ((10 : ℚ) ^ x.e) ≠ 0 := by positivity
  have hy : ((10 : ℚ) ^ y.e) ≠ 0 := by positivity
  rw [pow_add, div_add_div _ _ hx hy]
  push_cast
  ring

theorem Dec.toRat_mul (x y : Dec) : (Dec.mul x y).toRat = x.toRat * y.toRat := by
  unfold Dec.mul Dec.toRat
  rw [pow_add, div_mul_div_comm]
  push_cast
  ring

theorem Dec.toRat_abs (x : Dec) : (Dec.abs x).toRat = |x.toRat| := by
  unfold Dec.abs Dec.toRat
  have h10 : |(10 : ℚ) ^ x.e| = (10 : ℚ) ^ x.e := abs_of_nonneg (by positivity)
  rw [abs_div, h10]
  push_cast
  rfl

/-! ## detector.py : value comparison -/

/-- Digit string to natural number. -/
def digitsToNat (l : List Char) : Nat :=
  l.foldl (fun acc c => acc * 10 + (c.toNat - ('0').toNat)) 0

/-- Consume an optional leading sign; `true` means negative. -/
def readSign : List Char → (Bool × List Char)
  | '-' :: r => (true, r)
  | '+' :: r => (false, r)
  | r => (false, r)

/-- Model of Python `float()` on decimal literals (optional surrounding
whitespace, optional sign, digits with optional fraction, optional exponent),
returning the exact value as a decimal fraction; `inf`/`nan`/underscore forms
are outside the modelled input space. -/
def pyFloatParse (s0 : List Char) : Option Dec :=
  let s := pyStrip s0
  let (neg, s1) := readSign s
  let ip := s1.takeWhile Char.isDigit
  let r1 := s1.dropWhile Char.isDigit
  let (fp, r2) :=
    match r1 with
    | '.' :: r => (r.takeWhile Char.isDigit, r.dropWhile Char.isDigit)
    | _ => (([] : List Char), r1)
  if ip = [] ∧ fp = [] then none
  else
    let mant : Int := (digitsToNat ip : Int) * 10 ^ fp.length + (digitsToNat fp : Int)
    let mant := if neg then -mant else mant
    match r2 with
    | [] => some ⟨mant, fp.length⟩
    | e :: r3 =>
      if e == 'e' || e == 'E' then
        let (eneg, r4) := readSign r3
        let ed := r4.takeWhile Char.isDigit
        let r5 := r4.dropWhile Char.isDigit
        if ed = [] ∨ r5 ≠ [] then none
        else
          if eneg then some ⟨mant, fp.length + digitsToNat ed⟩
          else some ⟨mant * 10 ^ digitsToNat ed, fp.length⟩
      else none

/-- The absolute tolerance `1e-9` of the detector's numeric comparison. -/
def floatTol : Dec := ⟨1, 9⟩

/-- `detector.py` `is_value_different`: equal strings are never different;
otherwise numeric comparison with absolute tolerance `1e-9` is tried, falling
back to `True` when either value fails to parse as a float. -/
def is_value_different (v1 v2 : List Char) : Bool :=
  if v1 = v2 then false
  else
    match pyFloatParse v1, pyFloatParse v2 with
    | some f1, some f2 => Dec.blt floatTol (Dec.abs (Dec.sub f1 f2))
    | _, _ => true

theorem floatTol_toRat : floatTol.toRat = 1 / 1000000000 := by
  unfold floatTol Dec.toRat
  norm_num

/-- Claim C3: `is_value_different` returns false exactly when the two values
are equal under the comparison rule — numeric with absolute tolerance `1e-9`
when both parse as numbers, exact string equality otherwise; in particular
`2.93` vs `2.930` is not different and `2.93` vs `2.90` is different. -/
theorem c3_is_value_different_correct :
    (∀ v1 v2 : List Char,
        is_value_different v1 v2 = false ↔
          (match pyFloatParse v1, pyFloatParse v2 with
           | some f1, some f2 => |f1.toRat - f2.toRat| ≤ 1 / 1000000000
           | _, _ => v1 = v2))
    ∧ is_value_different (("2.93").data) (("2.930").data) = false
    ∧ is_value_different (("2.93").data) (("2.90").data) = true := by
  have key : ∀ f1 f2 : Dec,
      (Dec.blt floatTol (Dec.abs (Dec.sub f1 f2)) = false) ↔
        |f1.toRat - f2.toRat| ≤ 1 / 1000000000 := by
    intro f1 f2
    rw [← Bool.not_eq_true, Dec.blt_iff, Dec.toRat_abs, Dec.toRat_sub, floatTol_toRat,
      not_lt]
  refine ⟨?_, by decide, by decide⟩
  intro v1 v2
  by_cases h : v1 = v2
  · subst h
    rcases hp : pyFloatParse v1 with _ | f
    · simp [is_value_different, hp]
    · simp only [is_value_different, if_pos rfl, hp]
      constructor
      · intro _
        simp
      · intro _
        rfl
  · rcases h1 : pyFloatParse v1 with _ | f1 <;> rcases h2 : pyFloatParse v2 with _ | f2
    · simp [is_value_different, h, h1, h2]
    · simp [is_value_different, h, h1, h2]
    · simp [is_value_different, h, h1, h2]
    · simp only [is_value_different, if_neg h, h1, h2]
      rw [← key f1 f2]

/-! ## detector.py : detect_drift -/

/-- Input row of `detect_drift`. -/
structure ClaimRow where
  normalized_terms : List Char
  article_id : Nat
  source_name : List Char
deriving DecidableEq

/-- The `(entity, claim_type, scope, key)` grouping key. -/
abbrev Identity := List Char × List Char × List Char × List Char

/-- An input row merged with its parsed fields (`{**row, **parsed}`). -/
structure PRow where
  normalized_terms : List Char
  article_id : Nat
  source_name : List Char
  entity : List Char
  claim_type : List Char
  scope : List Char
  key : List Char
  value : List Char
deriving DecidableEq

def mergeRow (r : ClaimRow) (p : ParsedTerm) : PRow :=
  ⟨r.normalized_terms, r.article_id, r.source_name,
    p.entity, p.claim_type, p.scope, p.key, p.value⟩

def ParsedTerm.identity (p : ParsedTerm) : Identity :=
  (p.entity, p.claim_type, p.scope, p.key)

/-- `defaultdict(list)` grouping step: append to the (first) entry with this
key, or add a fresh key at the end (dict insertion order). -/
def addToGroups : List (Identity × List PRow) → Identity → PRow →
    List (Identity × List PRow)
  | [], i, p => [(i, [p])]
  | (j, ps) :: rest, i, p =>
    if j = i then (j, ps ++ [p]) :: rest else (j, ps) :: addToGroups rest i p

/-- One iteration of step 1–2 of `detect_drift`: parse a row (malformed rows
are skipped with a warning) and add it to its identity group. -/
def groupStep (gs : List (Identity × List PRow)) (r : ClaimRow) :
    List (Identity × List PRow) :=
  match parse_normalized_terms r.normalized_terms with
  | .error _ => gs
  | .ok p => addToGroups gs p.identity (mergeRow r p)

/-- Steps 1–2 of `detect_drift`: parse every row, skipping malformed ones,
and group the parsed rows by claim identity. -/
def groupRows (rows : List ClaimRow) : List (Identity × List PRow) :=
  rows.foldl groupStep []

inductive DriftEntry where
  | valueDrift (ref observed : List Char)
  | timeDrift (delay : Dec)
deriving DecidableEq

structure DriftEvent where
  identity : Identity
  source : List Char
  drifts : List DriftEntry
deriving DecidableEq

/-- `TIME_DRIFT_THRESHOLD_SECONDS = 15 * 60`. -/
def TIME_DRIFT_THRESHOLD_SECONDS : Dec := ⟨15 * 60, 0⟩

/-- The body of the inner loop of `detect_drift`: build the event for one
non-authoritative row `c` (value drift first, then timing drift; the timing
check is skipped when the observed article is missing from the lookup). -/
def buildEvent (refValue : List Char) (refTime : Dec) (lookup : Nat → Option Dec)
    (i : Identity) (c : PRow) : DriftEvent :=
  let valueDrifts :=
    if is_value_different c.value refValue then
      [DriftEntry.valueDrift refValue c.value]
    else []
  let timeDrifts :=
    match lookup c.article_id with
    | some obs =>
      let delta := Dec.sub obs refTime
      if Dec.blt TIME_DRIFT_THRESHOLD_SECONDS delta then
        [DriftEntry.timeDrift delta]
      else []
    | none => []
  ⟨i, c.source_name, valueDrifts ++ timeDrifts⟩

/-- Steps 3–4 of `detect_drift` for one identity group: take the first
authoritative row as reference (skip the group when there is none, or when its
article is missing from the lookup), then emit an event for every other row
whose drift list is non-empty. -/
def processGroup (lookup : Nat → Option Dec) (authoritative_source : List Char)
    (i : Identity) (claims : List PRow) : List DriftEvent :=
  match claims.filter (fun c => c.source_name == authoritative_source) with
  | [] => []
  | ref :: _ =>
    match lookup ref.article_id with
    | none => []
    | some refTime =>
      (claims.filter (fun c => !(c.source_name == authoritative_source))).filterMap
        (fun c =>
          if (buildEvent ref.value refTime lookup i c).drifts = [] then none
          else some (buildEvent ref.value refTime lookup i c))

/-- `detector.py` `detect_drift`. -/
def detect_drift (claim_rows : List ClaimRow) (article_lookup : Nat → Option Dec)
    (authoritative_source : List Char) : List DriftEvent :=
  (groupRows claim_rows).bind
    (fun g => processGroup article_lookup authoritative_source g.1 g.2)

/-- Number of emitted events carrying a given (identity, source) pair. -/
def countPairEvents (evs : List DriftEvent) (i : Identity) (s : List Char) : Nat :=
  (evs.filter (fun e => e.identity == i && e.source == s)).length

/-- Number of input rows that parse to a given identity and carry a given
source. -/
def countPairRows (rows : List ClaimRow) (i : Identity) (s : List Char) : Nat :=
  (rows.filter (fun r =>
    match parse_normalized_terms r.normalized_terms with
    | .ok p => p.identity == i && r.source_name == s
    | .error _ => false)).length

/-- Per-group contribution of rows carrying a given identity and source. -/
def pairCount : List (Identity × List PRow) → Identity → List Char → Nat
  | [], _, _ => 0
  | g :: rest, i, s =>
    (if g.1 = i then (g.2.filter (fun c => c.source_name == s)).length else 0) +
      pairCount rest i s

theorem count_filterMap_le {α β : Type} (f : α → Option β) (P : β → Bool)
    (Q : α → Bool) (h : ∀ a b, f a = some b → P b = Q a) (l : List α) :
    ((l.filterMap f).filter P).length ≤ (l.filter Q).length := by
  induction l with
  | nil => simp
  | cons a l ih =>
    cases hfa : f a with
    | none =>
      simp only [List.filterMap_cons, hfa, List.filter_cons]
      by_cases hq : Q a = true
      · simp only [hq, if_true]
        exact le_trans ih (by simp)
      · simp only [hq, if_false]
        exact ih
    | some b =>
      have hPQ := h a b hfa
      simp only [List.filterMap_cons, hfa, List.filter_cons, hPQ]
      by_cases hq : Q a = true
      · simp only [hq, if_true, List.length_cons]
        exact Nat.succ_le_succ ih
      · simp only [hq, if_false]
        exact ih

theorem length_filter_filter_le {α : Type} (A Q : α → Bool) (l : List α) :
    ((l.filter A).filter Q).length ≤ (l.filter Q).length := by
  induction l with
  | nil => simp
  | cons a l ih =>
    simp only [List.filter_cons]
    by_cases hA : A a = true <;> by_cases hq : Q a = true <;>
      simp only [hA, hq, if_true, if_false, List.filter_cons, List.length_cons]
    · exact Nat.succ_le_succ ih
    · exact ih
    · exact le_trans ih (by simp)
    · exact ih

theorem mem_processGroup {lookup : Nat → Option Dec} {auth : List Char}
    {i : Identity} {claims : List PRow} {e : DriftEvent}
    (h : e ∈ processGroup lookup auth i claims) :
    e.identity = i ∧ e.source ∈ claims.map PRow.source_name ∧ e.drifts ≠ [] := by
  rcases hf : claims.filter (fun c => c.source_name == auth) with _ | ⟨ref, rest⟩
  · simp [processGroup, hf] at h
  · cases hl : lookup ref.article_id with
    | none => simp [processGroup, hf, hl] at h
    | some refTime =>
      simp only [processGroup, hf, hl] at h
      rcases List.mem_filterMap.mp h with ⟨c, hc, hsome⟩
      by_cases hd : (buildEvent ref.value refTime lookup i c).drifts = []
      · rw [if_pos hd] at hsome
        exact absurd hsome (by simp)
      · rw [if_neg hd] at hsome
        have he : e = buildEvent ref.value refTime lookup i c :=
          (Option.some.inj hsome).symm
        subst he
        refine ⟨rfl, ?_, hd⟩
        have hcm : c ∈ claims := List.mem_of_mem_filter hc
        exact List.mem_map.mpr ⟨c, hcm, rfl⟩

theorem processGroup_pair_le (lookup : Nat → Option Dec) (auth : List Char)
    (j : Identity) (claims : List PRow) (i : Identity) (s : List Char) :
    countPairEvents (processGroup lookup auth j claims) i s ≤
      (if j = i then (claims.filter (fun c => c.source_name == s)).length else 0) := by
  by_cases hji : j = i
  · subst hji
    rw [if_pos rfl]
    unfold countPairEvents
    rcases hf : claims.filter (fun c => c.source_name == auth) with _ | ⟨ref, rest⟩
    · simp [processGroup, hf]
    · cases hl : lookup ref.article_id with
      | none => simp [processGroup, hf, hl]
      | some refTime =>
        simp only [processGroup, hf, hl]
        refine le_trans (count_filterMap_le _ _ (fun c => c.source_name == s) ?_ _)
          (length_filter_filter_le _ _ _)
        intro c e hsome
        by_cases hd : (buildEvent ref.value refTime lookup j c).drifts = []
        · rw [if_pos hd] at hsome
          exact absurd hsome (by simp)
        · rw [if_neg hd] at hsome
          have he : e = buildEvent ref.value refTime lookup j c :=
            (Option.some.inj hsome).symm
          subst he
          simp [buildEvent]
  · rw [if_neg hji]
    rw [Nat.le_zero]
    unfold countPairEvents
    rw [List.length_eq_zero]
    refine List.filter_eq_nil.mpr ?_
    intro e he
    have hid := (mem_processGroup he).1
    simp only [Bool.and_eq_true, beq_iff_eq, hid]
    intro hcontra
    exact hji hcontra.1

theorem countPairEvents_bind (gs : List (Identity × List PRow))
    (lookup : Nat → Option Dec) (auth : List Char) (i : Identity) (s : List Char) :
    countPairEvents (gs.bind (fun g => processGroup lookup auth g.1 g.2)) i s ≤
      pairCount gs i s := by
  induction gs with
  | nil => simp [countPairEvents, pairCount]
  | cons g rest ih =>
    have hbind : (g :: rest).bind (fun g => processGroup lookup auth g.1 g.2) =
        processGroup lookup auth g.1 g.2 ++
          rest.bind (fun g => processGroup lookup auth g.1 g.2) := rfl
    rw [hbind]
    unfold countPairEvents at ih ⊢
    rw [List.filter_append, List.length_append]
    exact Nat.add_le_add (processGroup_pair_le lookup auth g.1 g.2 i s) ih

theorem pairCount_addToGroups (gs : List (Identity × List PRow)) (i : Identity)
    (p : PRow) (i' : Identity) (s : List Char) :
    pairCount (addToGroups gs i p) i' s =
      pairCount gs i' s + (if i = i' ∧ p.source_name = s then 1 else 0) := by
  have hfp : (List.filter (fun c => c.source_name == s) [p]).length =
      (if p.source_name = s then 1 else 0) := by
    by_cases h2 : p.source_name = s <;> simp [List.filter_cons, h2]
  induction gs with
  | nil =>
    by_cases h1 : i = i' <;> by_cases h2 : p.source_name = s <;>
      simp [addToGroups, pairCount, List.filter_cons, h1, h2]
  | cons g rest ih =>
    obtain ⟨j, ps⟩ := g
    by_cases hji : j = i
    · subst hji
      simp only [addToGroups, if_pos rfl, pairCount]
      rw [List.filter_append, List.length_append, hfp]
      by_cases h1 : j = i'
      · subst h1
        by_cases h2 : p.source_name = s <;> simp [h2] <;> omega
      · simp [h1]
    · simp only [addToGroups, if_neg hji, pairCount]
      rw [ih]
      omega

theorem countPairRows_cons (r : ClaimRow) (rows : List ClaimRow) (i : Identity)
    (s : List Char) :
    countPairRows (r :: rows) i s =
      (match parse_normalized_terms r.normalized_terms with
       | .ok p => if p.identity == i && r.source_name == s then 1 else 0
       | .error _ => 0) + countPairRows rows i s := by
  unfold countPairRows
  rw [List.filter_cons]
  cases hp : parse_normalized_terms r.normalized_terms with
  | error e => simp [hp]
  | ok p =>
    by_cases hq : (p.identity == i && r.source_name == s) = true <;>
      simp [hp, hq] <;> omega

theorem pairCount_foldl (rows : List ClaimRow) (gs : List (Identity × List PRow))
    (i : Identity) (s : List Char) :
    pairCount (rows.foldl groupStep gs) i s = pairCount gs i s + countPairRows rows i s := by
  induction rows generalizing gs with
  | nil => simp [countPairRows]
  | cons r rows ih =>
    rw [List.foldl_cons, ih, countPairRows_cons]
    unfold groupStep
    cases hp : parse_normalized_terms r.normalized_terms with
    | error e =>
      dsimp only
      omega
    | ok p =>
      dsimp only
      rw [pairCount_addToGroups]
      have hiff : (p.identity == i && r.source_name == s) = true ↔
          (p.identity = i ∧ (mergeRow r p).source_name = s) := by
        simp [mergeRow]
      by_cases hq : (p.identity == i && r.source_name == s) = true
      · rw [if_pos (hiff.mp hq), if_pos hq]
        omega
      · rw [if_neg (fun hc => hq (hiff.mpr hc)), if_neg hq]
        omega

/-- Claim C4 counterexample: with two rows from the same non-authoritative
source for one claim identity, `detect_drift` emits two events for that
single (identity, source) pair in one run. -/
theorem c4_counterexample :
    1 < countPairEvents
      (detect_drift
        [⟨("A|T|S|K=1").data, 0, ("AUTH").data⟩,
         ⟨("A|T|S|K=2").data, 1, ("SRC").data⟩,
         ⟨("A|T|S|K=3").data, 2, ("SRC").data⟩]
        (fun n => if n ≤ 2 then some ⟨0, 0⟩ else none)
        (("AUTH").data))
      ((("A").data, ("T").data, ("S").data, ("K").data)) (("SRC").data) := by
  decide

/-- Claim C4 (amended): `detect_drift` creates at most one `DriftEvent` per
non-authoritative input row — the number of events carrying a given
(identity, source) pair never exceeds the number of input rows parsing to
that identity with that source (so at most one per pair whenever each source
contributes at most one row per identity) — and an event appears in the
returned list only if its drift list is non-empty. -/
theorem c4_detect_drift_event_bounds :
    ∀ (rows : List ClaimRow) (lookup : Nat → Option Dec) (auth : List Char)
      (i : Identity) (s : List Char),
      countPairEvents (detect_drift rows lookup auth) i s ≤ countPairRows rows i s
      ∧ (detect_drift rows lookup auth).all (fun e => !(e.drifts.isEmpty)) = true := by
  intro rows lookup auth i s
  constructor
  · unfold detect_drift groupRows
    refine le_trans (countPairEvents_bind _ lookup auth i s) ?_
    rw [pairCount_foldl]
    simp [pairCount]
  · rw [List.all_eq_true]
    intro e he
    rcases List.mem_bind.mp he with ⟨g, hg, hpe⟩
    have hd := (mem_processGroup hpe).2.2
    cases hdr : e.drifts with
    | nil => exact absurd hdr hd
    | cons a l => simp [hdr]

theorem threshold_toRat : TIME_DRIFT_THRESHOLD_SECONDS.toRat = 900 := by
  unfold TIME_DRIFT_THRESHOLD_SECONDS Dec.toRat
  norm_num

/-- Claim C5: a `TIME_DRIFT` entry is emitted for an observed
non-authoritative row if and only if `delta = observed_time - reference_time`
strictly exceeds 900 seconds (negative or sub-threshold deltas never produce
one), and for a same-value claim observed 1200 seconds after the reference,
`detect_drift` returns exactly one event holding a single `TIME_DRIFT` entry
with `delay_seconds = 1200` and no `VALUE_DRIFT` entry. -/
theorem c5_time_drift_threshold :
    (∀ (refValue : List Char) (refTime : Dec) (lookup : Nat → Option Dec)
       (i : Identity) (c : PRow) (d : Dec),
        DriftEntry.timeDrift d ∈ (buildEvent refValue refTime lookup i c).drifts ↔
          ∃ t, lookup c.article_id = some t ∧
            900 < (Dec.sub t refTime).toRat ∧ d = Dec.sub t refTime)
    ∧ detect_drift
        [⟨("MSFT|EARNINGS|FY2024-Q2|EPS=2.93").data, 0, ("OFFICIAL").data⟩,
         ⟨("MSFT|EARNINGS|FY2024-Q2|EPS=2.93").data, 1, ("NEWS_SITE").data⟩]
        (fun n => if n = 0 then some ⟨0, 0⟩ else if n = 1 then some ⟨1200, 0⟩ else none)
        (("OFFICIAL").data) =
      [⟨(("MSFT").data, ("EARNINGS").data, ("FY2024-Q2").data, ("EPS").data),
        ("NEWS_SITE").data, [DriftEntry.timeDrift ⟨1200, 0⟩]⟩] := by
  constructor
  · intro refValue refTime lookup i c d
    unfold buildEvent
    cases hl : lookup c.article_id with
    | none =>
      by_cases hv : is_value_different c.value refValue = true <;>
        simp [hl, hv]
    | some t =>
      have hbr : Dec.blt TIME_DRIFT_THRESHOLD_SECONDS (Dec.sub t refTime) = true ↔
          900 < (Dec.sub t refTime).toRat := by
        rw [Dec.blt_iff, threshold_toRat]
      by_cases hb : Dec.blt TIME_DRIFT_THRESHOLD_SECONDS (Dec.sub t refTime) = true
      · have h900 := hbr.mp hb
        by_cases hv : is_value_different c.value refValue = true <;>
          simp [hl, hv, hb, h900, eq_comm]
      · have h900 : ¬ 900 < (Dec.sub t refTime).toRat := fun hc => hb (hbr.mpr hc)
        by_cases hv : is_value_different c.value refValue = true <;>
          simp [hl, hv, hb, h900]
  · decide

/-! ## rules.py : normalize_eps / normalize_revenue, normalizer.py : normalize_article -/

/-- Does `pat` occur as a prefix of `s`? -/
def listStarts (pat s : List Char) : Bool :=
  match pat, s with
  | [], _ => true
  | _ :: _, [] => false
  | p :: ps, c :: cs => p == c && listStarts ps cs

/-- Does `pat` occur as a contiguous substring of `s` (Python `in`)? -/
def containsSub (pat : List Char) : List Char → Bool
  | [] => listStarts pat []
  | c :: cs => listStarts pat (c :: cs) || containsSub pat cs

/-- A Python value as stored in an article field. -/
inductive PyVal where
  | vStr (s : List Char)
  | vInt (n : Int)
  | vFloat (x : Dec)
deriving DecidableEq

/-- Python truthiness of a field value (`""`, `0` and `0.0` are falsy). -/
def PyVal.truthy : PyVal → Bool
  | .vStr s => !s.isEmpty
  | .vInt n => n != 0
  | .vFloat x => x.m != 0

/-- Truthiness of `article.get(field)` (`None` is falsy). -/
def truthyOpt : Option PyVal → Bool
  | none => false
  | some v => v.truthy

/-- Decimal digits of a natural number (fuel-based long division). -/
def natDigitsAux : Nat → Nat → List Char → List Char
  | 0, _, acc => acc
  | fuel + 1, n, acc =>
    if n < 10 then Char.ofNat (48 + n) :: acc
    else natDigitsAux fuel (n / 10) (Char.ofNat (48 + n % 10) :: acc)

def natToStr (n : Nat) : List Char := natDigitsAux (n + 1) n []

/-- Python `str` of an int. -/
def intToStr (n : Int) : List Char :=
  if n < 0 then '-' :: natToStr n.natAbs else natToStr n.natAbs

/-- Python `str` of a float, for floats whose value is an exact decimal
fraction (the shortest-roundtrip printing of arbitrary binary doubles is
outside the model): drop trailing fractional zeros, keep one fractional
digit for integral values. -/
def floatToStr (x : Dec) : List Char :=
  let sign := if x.m < 0 then [('-')] else []
  let digits := natToStr x.m.natAbs
  let padded := List.replicate (x.e + 1 - digits.length) '0' ++ digits
  let ipart := padded.take (padded.length - x.e)
  let fpart := padded.drop (padded.length - x.e)
  let ftrim := (fpart.reverse.dropWhile (fun c => c == '0')).reverse
  sign ++ ipart ++ ('.' :: (if ftrim.isEmpty then [('0')] else ftrim))

/-- `str(value)` applied by `normalize_article` to an EPS field before rule
processing (strings pass unchanged). -/
def pyValToStr : PyVal → List Char
  | .vStr s => s
  | .vInt n => intToStr n
  | .vFloat x => floatToStr x

/-- `f"${value}"` applied by `normalize_article` to a numeric revenue field
(strings pass unchanged). -/
def pyValToRevStr : PyVal → List Char
  | .vStr s => s
  | .vInt n => '$' :: intToStr n
  | .vFloat x => '$' :: floatToStr x

/-- Attempt of the EPS regex `EPS\s*\$?([\d\.]+)` (case-insensitive) at one
start position: `EPS`, greedy whitespace, optional `$`, then a non-empty run
of digits/dots as the captured group. -/
def matchEPSAt : List Char → Option (List Char)
  | e :: p :: s :: rest =>
    if e.toLower == 'e' && p.toLower == 'p' && s.toLower == 's' then
      let r1 := rest.dropWhile isPySpace
      let r2 := match r1 with
        | '$' :: r => r
        | _ => r1
      let grp := r2.takeWhile (fun c => c.isDigit || c == '.')
      if grp.isEmpty then none else some grp
    else none
  | _ => none

/-- `re.search` of the EPS pattern: leftmost start position that matches. -/
def epsSearch : List Char → Option (List Char)
  | [] => none
  | c :: cs =>
    match matchEPSAt (c :: cs) with
    | some g => some g
    | none => epsSearch cs

/-- Shared syntax of Python `Decimal` literals without exponent (optional
sign, digits, optional fraction; exponent/`NaN`/`Infinity` forms are outside
the modelled input space): returns (negative, integer digits, fraction
digits). -/
def pyDecimalParse (s : List Char) : Option (Bool × List Char × List Char) :=
  let (neg, s1) := readSign s
  let ip := s1.takeWhile Char.isDigit
  let r1 := s1.dropWhile Char.isDigit
  match r1 with
  | [] => if ip.isEmpty then none else some (neg, ip, [])
  | '.' :: r2 =>
    let fp := r2.takeWhile Char.isDigit
    let r3 := r2.dropWhile Char.isDigit
    if r3.isEmpty then
      if ip.isEmpty && fp.isEmpty then none else some (neg, ip, fp)
    else none
  | _ => none

/-- `str(Decimal(s))`: sign kept (also for negative zero), leading integer
zeros dropped (one `0` kept when the integer part is empty), fraction kept
verbatim including trailing zeros, dot omitted for an empty fraction. -/
def decimalRender (neg : Bool) (ip fp : List Char) : List Char :=
  let ipz := ip.dropWhile (fun c => c == '0')
  let ipart := if ipz.isEmpty then [('0')] else ipz
  (if neg then [('-')] else []) ++ ipart ++ (if fp.isEmpty then [] else '.' :: fp)

def pyDecimalStr (s : List Char) : Option (List Char) :=
  (pyDecimalParse s).map (fun t => decimalRender t.1 t.2.1 t.2.2)

/-- The exact value of a `Decimal` literal as a decimal fraction. -/
def pyDecimalVal (s : List Char) : Option Dec :=
  (pyDecimalParse s).map (fun t =>
    ⟨(if t.1 then -1 else 1) *
        ((digitsToNat t.2.1 : Int) * 10 ^ t.2.2.length + (digitsToNat t.2.2 : Int)),
      t.2.2.length⟩)

/-- `rules.py` `normalize_eps`: regex extraction when the pattern is present,
then strip / remove `$`, `,` and parse as `Decimal`; the claim value is
`str(eps)`.  `ValueError` is modelled as `none` (the caller catches it). -/
def normalize_eps (raw_eps : List Char) : Option (List Char) :=
  let raw := match epsSearch raw_eps with
    | some g => g
    | none => raw_eps
  let cleaned := (pyStrip raw).filter (fun c => !(c == '$') && !(c == ','))
  pyDecimalStr cleaned

/-- Attempt of the revenue regex `\$?([\d,]+\.?\d*)\s*(B|billion|M|million)`
(case-insensitive) at one start position.  The single-character alternatives
`B` / `M` are tried before the long forms, so the unit group is always the
one character `b`/`m` (case-insensitive); returns (number group, unit
character). -/
def matchRevAt (l : List Char) : Option (List Char × Char) :=
  let l1 := match l with
    | '$' :: r => r
    | _ => l
  let run1 := l1.takeWhile (fun c => c.isDigit || c == ',')
  let r1 := l1.dropWhile (fun c => c.isDigit || c == ',')
  if run1.isEmpty then none
  else
    match r1 with
    | '.' :: r2 =>
      let frac := r2.takeWhile Char.isDigit
      let r3 := r2.dropWhile Char.isDigit
      match r3.dropWhile isPySpace with
      | u :: _ =>
        if u.toLower == 'b' || u.toLower == 'm' then some (run1 ++ '.' :: frac, u)
        else none
      | [] => none
    | _ =>
      match r1.dropWhile isPySpace with
      | u :: _ =>
        if u.toLower == 'b' || u.toLower == 'm' then some (run1, u)
        else none
      | [] => none

/-- `re.search` of the revenue pattern: leftmost start position that
matches. -/
def revSearch : List Char → Option (List Char × Char)
  | [] => none
  | c :: cs =>
    match matchRevAt (c :: cs) with
    | some g => some g
    | none => revSearch cs

/-- Truncation toward zero of a decimal fraction (Python `int()`). -/
def decTruncInt (x : Dec) : Int := x.m / (10 : Int) ^ x.e

/-- `rules.py` `normalize_revenue`: regex match, commas removed from the
number, `Decimal` value scaled by 1e9 (`b`) or 1e6 (`m`) and truncated to an
integer.  `ValueError` is modelled as `none` (the caller catches it). -/
def normalize_revenue (raw_rev : List Char) : Option Int :=
  match revSearch raw_rev with
  | none => none
  | some (grp, u) =>
    match pyDecimalVal (grp.filter (fun c => !(c == ','))) with
    | none => none
    | some v =>
      if u.toLower == 'b' then some (decTruncInt (Dec.mul v ⟨1000000000, 0⟩))
      else some (decTruncInt (Dec.mul v ⟨1000000, 0⟩))

/-- Article row as consumed by `normalize_article` (`article.get(...)` of a
missing key is `none`). -/
structure Article where
  institution : Option (List Char)
  title : Option (List Char)
  eps : Option PyVal
  revenue : Option PyVal
deriving DecidableEq

/-- The EPS block of `normalize_article`: skipped when the field is falsy,
extraction failures are logged and skipped. -/
def epsClaimsOf (inst period : List Char) (eps : Option PyVal) : List (List Char) :=
  match eps with
  | some v =>
    if v.truthy then
      match normalize_eps (pyValToStr v) with
      | some d => [build_claim inst (("EARNINGS").data) period (("EPS").data) d]
      | none => []
    else []
  | none => []

/-- The revenue block of `normalize_article`: skipped when the field is
falsy, extraction failures are logged and skipped. -/
def revClaimsOf (inst period : List Char) (rev : Option PyVal) : List (List Char) :=
  match rev with
  | some v =>
    if v.truthy then
      match normalize_revenue (pyValToRevStr v) with
      | some r =>
        [build_claim inst (("EARNINGS").data) period (("REVENUE_USD").data) (intToStr r)]
      | none => []
    else []
  | none => []

/-- `normalizer.py` `normalize_article`: institution required, classification
by lowercased title (`earnings` → EARNINGS, `trading halt` → HALT, otherwise
ineligible); the EARNINGS path requires a fiscal period from the title and
then processes EPS and revenue independently; the HALT path emits one fixed
claim. -/
def normalize_article (a : Article) : List (List Char) :=
  match a.institution with
  | none => []
  | some inst =>
    if inst.isEmpty then []
    else
      let title := a.title.getD []
      let title_lower := title.map Char.toLower
      if containsSub (("earnings").data) title_lower then
        match normalize_period title with
        | .error _ => []
        | .ok period => epsClaimsOf inst period a.eps ++ revClaimsOf inst period a.revenue
      else if containsSub (("trading halt").data) title_lower then
        [build_claim inst (("HALT").data) (("NASDAQ").data) (("STATUS").data) (("HALTED").data)]
      else []

/-- Claim C10: a falsy `eps` field (0, 0.0, the empty string, or absent) is
treated exactly like an absent field and silently yields no EPS claim, even
for an eligible EARNINGS article with a valid fiscal period; likewise for a
falsy `revenue` field.  The last two conjuncts show an eligible article where
`eps = 0.0` produces only the revenue claim while `eps = "2.93"` produces the
EPS claim. -/
theorem c10_falsy_fields_skipped :
    (∀ a : Article, truthyOpt a.eps = false →
        normalize_article a = normalize_article { a with eps := none })
    ∧ (∀ a : Article, truthyOpt a.revenue = false →
        normalize_article a = normalize_article { a with revenue := none })
    ∧ normalize_article ⟨some (("MSFT").data), some (("Earnings Q2 FY24").data),
        some (.vFloat ⟨0, 0⟩), some (.vStr (("$1.5B").data))⟩ =
      [("MSFT|EARNINGS|FY2024-Q2|REVENUE_USD=1500000000").data]
    ∧ normalize_article ⟨some (("MSFT").data), some (("Earnings Q2 FY24").data),
        some (.vStr (("2.93").data)), some (.vStr (("$1.5B").data))⟩ =
      [("MSFT|EARNINGS|FY2024-Q2|EPS=2.93").data,
       ("MSFT|EARNINGS|FY2024-Q2|REVENUE_USD=1500000000").data] := by
  refine ⟨?_, ?_, by decide, by decide⟩
  · intro a ha
    rcases a with ⟨inst, title, eps, rev⟩
    cases eps with
    | none => rfl
    | some v =>
      have hv : v.truthy = false := by simpa [truthyOpt] using ha
      have heps : ∀ inst period : List Char,
          epsClaimsOf inst period (some v) = epsClaimsOf inst period none := by
        intro inst period
        simp [epsClaimsOf, hv]
      simp only [normalize_article, heps]
  · intro a ha
    rcases a with ⟨inst, title, eps, rev⟩
    cases rev with
    | none => rfl
    | some v =>
      have hv : v.truthy = false := by simpa [truthyOpt] using ha
      have hrev : ∀ inst period : List Char,
          revClaimsOf inst period (some v) = revClaimsOf inst period none := by
        intro inst period
        simp [revClaimsOf, hv]
      simp only [normalize_article, hrev]

/-- Witness for C10: the equality theorem applied to a concrete eligible
article whose `eps` field is the falsy float `0.0`. -/
theorem c10_falsy_fields_skipped_witness :
    normalize_article ⟨some (("MSFT").data), some (("Earnings Q2 FY24").data),
        some (.vFloat ⟨0, 0⟩), some (.vStr (("$1.5B").data))⟩ =
      normalize_article
        { (⟨some (("MSFT").data), some (("Earnings Q2 FY24").data),
            some (.vFloat ⟨0, 0⟩), some (.vStr (("$1.5B").data))⟩ : Article)
          with eps := none } :=
  c10_falsy_fields_skipped.1 _ (by decide)

/-! ## ingestion/normalizer.py : normalize, has_negation -/

def STOPWORDS : List (List Char) :=
  [("the").data, ("is").data, ("a").data, ("an").data, ("to").data, ("of").data,
   ("and").data, ("in").data, ("on").data, ("for").data, ("with").data,
   ("at").data, ("by").data]

/-- Words that flip the meaning of a claim. -/
def NEGATION_WORDS : List (List Char) :=
  [("not").data, ("no").data, ("never").data, ("unlikely").data,
   ("without").data, ("avoid").data, ("fail").data]

def isLowerAlpha (c : Char) : Bool := decide ('a' ≤ c) && decide (c ≤ 'z')

/-- `re.findall("[a-z]+", text)`: the maximal runs of lowercase letters
(fuel-based so that concrete runs reduce in the kernel). -/
def tokensFuel : Nat → List Char → List (List Char)
  | 0, _ => []
  | _, [] => []
  | fuel + 1, c :: cs =>
    if isLowerAlpha c then
      (c :: cs.takeWhile isLowerAlpha) :: tokensFuel fuel (cs.dropWhile isLowerAlpha)
    else tokensFuel fuel cs

def tokensOf (l : List Char) : List (List Char) := tokensFuel (l.length + 1) l

/-- `ingestion/normalizer.py` `has_negation`: lowercase, tokenize, and test
for a common word with the negation vocabulary. -/
def has_negation (text : List Char) : Bool :=
  (tokensOf (text.map Char.toLower)).any (fun t => NEGATION_WORDS.contains t)

/-- Python string comparison (lexicographic by code point). -/
def lexLe : List Char → List Char → Bool
  | [], _ => true
  | _ :: _, [] => false
  | x :: xs, y :: ys => if x < y then true else if y < x then false else lexLe xs ys

def lexOrder (a b : List Char) : Prop := lexLe a b = true

instance : DecidableRel lexOrder := fun a b => by
  unfold lexOrder
  infer_instance

/-- `" ".join(...)`. -/
def joinSpaces : List (List Char) → List Char
  | [] => []
  | [x] => x
  | x :: xs => x ++ ' ' :: joinSpaces xs

/-- `ingestion/normalizer.py` `normalize`: lowercase, tokenize, drop
stopwords, deduplicate (`set`), sort, join with spaces. -/
def pyNormalize (text : List Char) : List Char :=
  let tokens := tokensOf (text.map Char.toLower)
  let tokens := tokens.filter (fun t => !(STOPWORDS.contains t))
  joinSpaces (tokens.dedup.insertionSort lexOrder)

/-! ## ingestion/search.py : database model, support and evidence queries -/

structure SourceRow where
  source_id : Nat
  source_name : List Char
  status : List Char
deriving DecidableEq

structure ArticleRow where
  article_id : Nat
  source_id : Nat
  institution : List Char
  title : List Char
  url : List Char
  published_at : Option Dec
deriving DecidableEq

structure ClaimDBRow where
  claim_id : Nat
  article_id : Nat
  normalized_terms : List Char
  embedding : Option (List Dec)
deriving DecidableEq

structure DB where
  sources : List SourceRow
  articles : List ArticleRow
  claims : List ClaimDBRow
deriving DecidableEq

def activeStatus : List Char := ("active").data

/-- `SQL_ACTIVE_TOTAL`: number of rows of `sources` with status `active`. -/
def totalActiveSources (db : DB) : Nat :=
  (db.sources.filter (fun s => s.status == activeStatus)).length

/-- The `a.source_id` column of the join in `SQL_SUPPORT_ACTIVE`: claims
matching the normalized terms, joined to their articles and to active
sources. -/
def supportSids (db : DB) (terms : List Char) : List Nat :=
  (db.claims.filter (fun c => c.normalized_terms == terms)).bind (fun c =>
    (db.articles.filter (fun a => a.article_id == c.article_id)).bind (fun a =>
      (db.sources.filter (fun s =>
          s.source_id == a.source_id && s.status == activeStatus)).map
        (fun s => s.source_id)))

/-- `COUNT(DISTINCT a.source_id)` of the support join. -/
def sourcesSupporting (db : DB) (terms : List Char) : Nat :=
  (supportSids db terms).dedup.length

/-- PostgreSQL `ROUND(numeric)`: round half away from zero. -/
def roundHalfAwayFromZero (x : ℚ) : Int :=
  if 0 ≤ x then ⌊x + 1 / 2⌋ else -⌊-x + 1 / 2⌋

/-- The `support_ratio` column of `SQL_SUPPORT_ACTIVE`:
`ROUND(sources_supporting / total_sources, 3)`, or `0` when
`total_sources = 0`. -/
def support_ratio (db : DB) (terms : List Char) : ℚ :=
  if totalActiveSources db = 0 then 0
  else
    (roundHalfAwayFromZero
        ((sourcesSupporting db terms : ℚ) / (totalActiveSources db : ℚ) * 1000) : ℚ)
      / 1000

/-- A row of the `SQL_EVIDENCE_ACTIVE` result set. -/
structure EvidenceRow where
  source_name : List Char
  institution : List Char
  title : List Char
  url : List Char
  published_at : Option Dec
deriving DecidableEq

/-- The unordered join of `SQL_EVIDENCE_ACTIVE`: claims matching the
normalized terms joined to their articles and to active sources. -/
def evidenceJoin (db : DB) (terms : List Char) : List EvidenceRow :=
  (db.claims.filter (fun c => c.normalized_terms == terms)).bind (fun c =>
    (db.articles.filter (fun a => a.article_id == c.article_id)).bind (fun a =>
      (db.sources.filter (fun s =>
          s.source_id == a.source_id && s.status == activeStatus)).map
        (fun s => ⟨s.source_name, a.institution, a.title, a.url, a.published_at⟩)))

/-- `ORDER BY a.published_at DESC` under PostgreSQL defaults: null sorts as
larger than every value, i.e. NULLS FIRST for a descending order. -/
def pubDescGe (x y : Option Dec) : Bool :=
  match x, y with
  | none, _ => true
  | some _, none => false
  | some a, some b => !(Dec.blt a b)

def evidenceOrder (a b : EvidenceRow) : Prop :=
  pubDescGe a.published_at b.published_at = true

instance : DecidableRel evidenceOrder := fun a b => by
  unfold evidenceOrder
  infer_instance

/-- The ordered result set of `SQL_EVIDENCE_ACTIVE`. -/
def evidenceRows (db : DB) (terms : List Char) : List EvidenceRow :=
  (evidenceJoin db terms).insertionSort evidenceOrder

/-! ## ingestion/search.py : semantic match and grouped search -/

/-- A row of `SQL_ALL_CLAIM_EMBEDS` (embedding not null). -/
structure EmbClaimRow where
  normalized_terms : List Char
  embedding : List Dec
deriving DecidableEq

/-- `np.dot` of two unit vectors (`cosine_sim`). -/
def cosine_sim (a b : List Dec) : Dec :=
  (a.zip b).foldl (fun acc p => Dec.add acc (Dec.mul p.1 p.2)) ⟨0, 0⟩

/-- `find_best_semantic_match`: scan all stored embeddings (skipping falsy
ones), keep the strictly best score starting from `-1.0`, and return the best
claim only when one exists and its score reaches `min_similarity`. -/
def find_best (user_vec : List Dec) (rows : List EmbClaimRow)
    (min_similarity : Dec) : Option (List Char × Dec) :=
  let best := rows.foldl
    (fun acc r =>
      if r.embedding.isEmpty then acc
      else
        if Dec.blt acc.2 (cosine_sim user_vec r.embedding) then
          (some r.normalized_terms, cosine_sim user_vec r.embedding)
        else acc)
    ((none : Option (List Char)), (⟨-1, 0⟩ : Dec))
  match best with
  | (none, _) => none
  | (some c, s) => if Dec.blt s min_similarity then none else some (c, s)

/-- The escalated similarity threshold `0.88` of the negation policy. -/
def escalationThreshold : Dec := ⟨88, 2⟩

def noMatchMsg : List Char :=
  ("No semantic match found with similarity >= min_similarity").data

def contradictionMsg : List Char :=
  ("Possible contradiction detected (negation mismatch). No strong semantic match found.").data

/-- Round-half-to-even of `num / den` for `den > 0` (Python `round`). -/
def roundHalfEvenInt (num den : Int) : Int :=
  let q := num / den
  let r := num % den
  if 2 * r < den then q
  else if 2 * r > den then q + 1
  else if q % 2 = 0 then q else q + 1

/-- Python `round(x, 4)` on the reported similarity (the binary-float
artifacts of rounding a double are outside the model). -/
def pyRound4 (x : Dec) : Dec :=
  if x.e ≤ 4 then ⟨x.m * 10 ^ (4 - x.e), 4⟩
  else ⟨roundHalfEvenInt x.m ((10 : Int) ^ (x.e - 4)), 4⟩

/-- The dictionary returned by `search_grouped` (`best_similarity`,
`negation_conflict` and `matched_claim` are absent on the no-match branches;
timestamps stay structured rather than `isoformat` strings). -/
structure SearchResult where
  user_input : List Char
  normalized_input : List Char
  match_found : Bool
  message : Option (List Char)
  matched_claim : Option (List Char)
  best_similarity : Option Dec
  negation_conflict : Option Bool
  sources_supporting : Nat
  total_sources : Nat
  support_ratio : ℚ
  evidence : List EvidenceRow
deriving DecidableEq

/-- `ingestion/search.py` `search_grouped`: semantic match over the stored
embeddings, negation-conflict escalation below `0.88`, then support and
evidence from the active-source SQL queries.  The external embedding model is
the injected `embedOf`; the database connection is the `db` value. -/
def search_grouped (db : DB) (embedOf : List Char → List Dec)
    (user_input : List Char) (min_similarity : Dec) : SearchResult :=
  let normalized_input := pyNormalize user_input
  let total_active := totalActiveSources db
  let embedRows := db.claims.filterMap (fun c =>
    c.embedding.map (fun e => (⟨c.normalized_terms, e⟩ : EmbClaimRow)))
  match find_best (embedOf user_input) embedRows min_similarity with
  | none =>
    ⟨user_input, normalized_input, false, some noMatchMsg, none, none, none,
      0, total_active, 0, []⟩
  | some (c, s) =>
    if c.isEmpty then
      ⟨user_input, normalized_input, false, some noMatchMsg, none, none, none,
        0, total_active, 0, []⟩
    else
      if (has_negation user_input != has_negation c) && Dec.blt s escalationThreshold then
        ⟨user_input, normalized_input, false, some contradictionMsg, none, none, none,
          0, total_active, 0, []⟩
      else
        ⟨user_input, normalized_input, true, none, some c, some (pyRound4 s),
          some (has_negation user_input != has_negation c),
          sourcesSupporting db c, totalActiveSources db, support_ratio db c,
          evidenceRows db c⟩

theorem escalation_toRat : escalationThreshold.toRat = 88 / 100 := by
  unfold escalationThreshold Dec.toRat
  norm_num

/-- Claim C6: when the best semantic match has a negation conflict and the
best similarity is strictly below `0.88`, `search_grouped` returns a
no-match/contradiction result; when the similarity is at or above `0.88`
despite the conflict, it returns the match with `negation_conflict = true`. -/
theorem c6_negation_escalation :
    ∀ (db : DB) (embedOf : List Char → List Dec) (u : List Char) (minSim : Dec)
      (c : List Char) (s : Dec),
      find_best (embedOf u)
          (db.claims.filterMap (fun cl =>
            cl.embedding.map (fun e => (⟨cl.normalized_terms, e⟩ : EmbClaimRow))))
          minSim = some (c, s) →
      c ≠ [] →
      has_negation u ≠ has_negation c →
      ((s.toRat < 88 / 100 →
          (search_grouped db embedOf u minSim).match_found = false
          ∧ (search_grouped db embedOf u minSim).message = some contradictionMsg)
        ∧ (88 / 100 ≤ s.toRat →
          (search_grouped db embedOf u minSim).match_found = true
          ∧ (search_grouped db embedOf u minSim).negation_conflict = some true)) := by
  intro db embedOf u minSim c s hfb hc hneg
  have hce : c.isEmpty = false := by
    cases c with
    | nil => exact absurd rfl hc
    | cons a l => rfl
  have hbne : (has_negation u != has_negation c) = true := bne_iff_ne.mpr hneg
  constructor
  · intro hlt
    have hblt : Dec.blt s escalationThreshold = true := by
      rw [Dec.blt_iff, escalation_toRat]
      exact hlt
    simp [search_grouped, hfb, hce, hbne, hblt]
  · intro hge
    have hblt : Dec.blt s escalationThreshold = false := by
      rw [← Bool.not_eq_true, Dec.blt_iff, escalation_toRat]
      exact not_lt.mpr hge
    simp [search_grouped, hfb, hce, hbne, hblt]

/-- Witness for C6: a stored claim `no revenue growth` against the query
`revenue growth strong` (a negation conflict), once with similarity `0.8`
(below the escalated threshold, downgraded to a contradiction result) and
once with similarity `0.9` (returned as a match flagged with
`negation_conflict = true`). -/
theorem c6_negation_escalation_witness :
    ((search_grouped ⟨[], [], [⟨1, 10, ("no revenue growth").data, some [⟨8, 1⟩]⟩]⟩
        (fun _ => [⟨1, 0⟩]) (("revenue growth strong").data) ⟨75, 2⟩).match_found = false
      ∧ (search_grouped ⟨[], [], [⟨1, 10, ("no revenue growth").data, some [⟨8, 1⟩]⟩]⟩
          (fun _ => [⟨1, 0⟩]) (("revenue growth strong").data) ⟨75, 2⟩).message =
            some contradictionMsg)
    ∧ ((search_grouped ⟨[], [], [⟨1, 10, ("no revenue growth").data, some [⟨9, 1⟩]⟩]⟩
        (fun _ => [⟨1, 0⟩]) (("revenue growth strong").data) ⟨75, 2⟩).match_found = true
      ∧ (search_grouped ⟨[], [], [⟨1, 10, ("no revenue growth").data, some [⟨9, 1⟩]⟩]⟩
          (fun _ => [⟨1, 0⟩]) (("revenue growth strong").data) ⟨75, 2⟩).negation_conflict =
            some true) :=
  ⟨(c6_negation_escalation ⟨[], [], [⟨1, 10, ("no revenue growth").data, some [⟨8, 1⟩]⟩]⟩
      (fun _ => [⟨1, 0⟩]) (("revenue growth strong").data) ⟨75, 2⟩
      (("no revenue growth").data) ⟨8, 1⟩ (by decide) (by decide) (by decide)).1
      (by norm_num [Dec.toRat]),
   (c6_negation_escalation ⟨[], [], [⟨1, 10, ("no revenue growth").data, some [⟨9, 1⟩]⟩]⟩
      (fun _ => [⟨1, 0⟩]) (("revenue growth strong").data) ⟨75, 2⟩
      (("no revenue growth").data) ⟨9, 1⟩ (by decide) (by decide) (by decide)).2
      (by norm_num [Dec.toRat])⟩

/-! ## C7 : evidence ordering -/

theorem Dec.blt_eq_false_iff (x y : Dec) :
    Dec.blt x y = false ↔ y.toRat ≤ x.toRat := by
  rw [← Bool.not_eq_true, Dec.blt_iff, not_lt]

/-- The sort key of `ORDER BY published_at DESC`: null compares above every
timestamp, so it comes first in descending order. -/
def pubKey : Option Dec → WithTop ℚ
  | none => ⊤
  | some d => (d.toRat : WithTop ℚ)

theorem evidenceOrder_iff (a b : EvidenceRow) :
    evidenceOrder a b ↔ pubKey b.published_at ≤ pubKey a.published_at := by
  unfold evidenceOrder pubDescGe pubKey
  cases ha : a.published_at with
  | none =>
    cases hb : b.published_at with
    | none => simp
    | some d => simp
  | some da =>
    cases hb : b.published_at with
    | none => simp
    | some db' =>
      rw [Bool.not_eq_true']
      rw [Dec.blt_eq_false_iff]
      simp [WithTop.coe_le_coe]

instance : IsTotal EvidenceRow evidenceOrder :=
  ⟨by
    intro a b
    rw [evidenceOrder_iff, evidenceOrder_iff]
    exact le_total (pubKey b.published_at) (pubKey a.published_at)⟩

instance : IsTrans EvidenceRow evidenceOrder :=
  ⟨by
    intro a b c hab hbc
    rw [evidenceOrder_iff] at hab hbc ⊢
    exact le_trans hbc hab⟩

/-- Claim C7 counterexample: with one timestamped and one untimestamped
qualifying article (both from active sources, matching the claim), the
evidence list puts the article lacking `published_at` FIRST — PostgreSQL's
`ORDER BY ... DESC` default is NULLS FIRST — refuting the claim that it
sorts after all timestamped articles. -/
theorem c7_counterexample :
    ((evidenceRows
        ⟨[⟨1, ("S1").data, ("active").data⟩, ⟨2, ("S2").data, ("active").data⟩],
         [⟨10, 1, ("I1").data, ("T1").data, ("U1").data, some ⟨100, 0⟩⟩,
          ⟨11, 2, ("I2").data, ("T2").data, ("U2").data, none⟩],
         [⟨1, 10, ("C").data, none⟩, ⟨2, 11, ("C").data, none⟩]⟩
        (("C").data)).map (fun r => r.published_at))
      = [none, some ⟨100, 0⟩]
    ∧ ([(none : Option Dec), some ⟨100, 0⟩] ≠ [some ⟨100, 0⟩, none]) := by
  constructor
  · decide
  · decide

/-- Claim C7 (amended): the evidence list contains every qualifying article
(from active sources, whose claim exactly equals the matched claim) ordered
by `published_at` descending — with articles lacking a timestamp sorting
BEFORE all timestamped articles, per the PostgreSQL NULLS FIRST default for
descending order. -/
theorem c7_evidence_order_amended :
    ∀ (db : DB) (terms : List Char),
      List.Perm (evidenceRows db terms) (evidenceJoin db terms)
      ∧ List.Sorted evidenceOrder (evidenceRows db terms)
      ∧ (∀ a b : EvidenceRow, evidenceOrder a b ↔
          pubKey b.published_at ≤ pubKey a.published_at) := by
  intro db terms
  exact ⟨List.perm_insertionSort _ _, List.sorted_insertionSort _ _,
    evidenceOrder_iff⟩

/-! ## C8 : support ratio -/

theorem sourcesSupporting_le (db : DB) (terms : List Char) :
    sourcesSupporting db terms ≤ totalActiveSources db := by
  unfold sourcesSupporting totalActiveSources
  have hnodup := List.nodup_dedup (supportSids db terms)
  have hsub : (supportSids db terms).dedup ⊆
      (db.sources.filter (fun s => s.status == activeStatus)).map
        (fun s => s.source_id) := by
    intro x hx
    have hx' : x ∈ supportSids db terms := (List.mem_dedup).mp hx
    unfold supportSids at hx'
    rcases List.mem_bind.mp hx' with ⟨c, hcmem, hx2⟩
    rcases List.mem_bind.mp hx2 with ⟨a, hamem, hx3⟩
    rcases List.mem_map.mp hx3 with ⟨srow, hsmem, hxeq⟩
    have hs2 := List.mem_filter.mp hsmem
    refine List.mem_map.mpr ⟨srow, ?_, hxeq⟩
    refine List.mem_filter.mpr ⟨hs2.1, ?_⟩
    have hand := hs2.2
    simp only [Bool.and_eq_true] at hand
    exact hand.2
  calc (supportSids db terms).dedup.length
      ≤ ((db.sources.filter (fun s => s.status == activeStatus)).map
          (fun s => s.source_id)).length := (hnodup.subperm hsub).length_le
    _ = (db.sources.filter (fun s => s.status == activeStatus)).length :=
        List.length_map _ _

/-- Claim C8: `support_ratio` is `sources_supporting / total_sources` rounded
(half away from zero, PostgreSQL `ROUND`) to 3 decimal places, is `0` when
`total_sources = 0`, always lies in `[0, 1]`, and equals `0.500` for a claim
corroborated by 2 distinct active sources out of 4. -/
theorem c8_support_ratio_properties :
    (∀ (db : DB) (terms : List Char),
        0 ≤ support_ratio db terms ∧ support_ratio db terms ≤ 1
        ∧ (totalActiveSources db = 0 → support_ratio db terms = 0)
        ∧ (totalActiveSources db ≠ 0 →
            support_ratio db terms =
              (roundHalfAwayFromZero
                  ((sourcesSupporting db terms : ℚ) / (totalActiveSources db : ℚ)
                    * 1000) : ℚ) / 1000))
    ∧ support_ratio
        ⟨[⟨1, ("S1").data, ("active").data⟩, ⟨2, ("S2").data, ("active").data⟩,
          ⟨3, ("S3").data, ("active").data⟩, ⟨4, ("S4").data, ("active").data⟩],
         [⟨10, 1, ("I1").data, ("T1").data, ("U1").data, none⟩,
          ⟨11, 2, ("I2").data, ("T2").data, ("U2").data, none⟩],
         [⟨1, 10, ("T").data, none⟩, ⟨2, 11, ("T").data, none⟩]⟩
        (("T").data) = 1 / 2 := by
  have hmain : ∀ (db : DB) (terms : List Char),
      0 ≤ support_ratio db terms ∧ support_ratio db terms ≤ 1
      ∧ (totalActiveSources db = 0 → support_ratio db terms = 0)
      ∧ (totalActiveSources db ≠ 0 →
          support_ratio db terms =
            (roundHalfAwayFromZero
                ((sourcesSupporting db terms : ℚ) / (totalActiveSources db : ℚ)
                  * 1000) : ℚ) / 1000) := by
    intro db terms
    by_cases ht : totalActiveSources db = 0
    · refine ⟨by simp [support_ratio, ht], by simp [support_ratio, ht],
        fun _ => by simp [support_ratio, ht], fun hcontra => absurd ht hcontra⟩
    · have htpos : (0 : ℚ) < (totalActiveSources db : ℚ) := by
        exact_mod_cast Nat.pos_of_ne_zero ht
      have harg0 : (0 : ℚ) ≤
          (sourcesSupporting db terms : ℚ) / (totalActiveSources db : ℚ) * 1000 := by
        positivity
      have harg1 :
          (sourcesSupporting db terms : ℚ) / (totalActiveSources db : ℚ) * 1000
            ≤ 1000 := by
        have hle : (sourcesSupporting db terms : ℚ) / (totalActiveSources db : ℚ) ≤ 1 := by
          rw [div_le_one htpos]
          exact_mod_cast sourcesSupporting_le db terms
        nlinarith
      have hfloor0 : (0 : ℤ) ≤
          ⌊(sourcesSupporting db terms : ℚ) / (totalActiveSources db : ℚ) * 1000
            + 1 / 2⌋ :=
        Int.floor_nonneg.mpr (by linarith)
      have hfloor1 :
          ⌊(sourcesSupporting db terms : ℚ) / (totalActiveSources db : ℚ) * 1000
            + 1 / 2⌋ ≤ 1000 := by
        have : ⌊(sourcesSupporting db terms : ℚ) / (totalActiveSources db : ℚ) * 1000
            + 1 / 2⌋ < 1001 := by
          rw [Int.floor_lt]
          push_cast
          linarith
        omega
      have hval : support_ratio db terms =
          (roundHalfAwayFromZero
              ((sourcesSupporting db terms : ℚ) / (totalActiveSources db : ℚ)
                * 1000) : ℚ) / 1000 := by
        unfold support_ratio
        rw [if_neg ht]
      have hrnd : roundHalfAwayFromZero
          ((sourcesSupporting db terms : ℚ) / (totalActiveSources db : ℚ) * 1000) =
          ⌊(sourcesSupporting db terms : ℚ) / (totalActiveSources db : ℚ) * 1000
            + 1 / 2⌋ := by
        unfold roundHalfAwayFromZero
        rw [if_pos harg0]
      refine ⟨?_, ?_, fun hcontra => absurd hcontra ht, fun _ => hval⟩
      · rw [hval, hrnd]
        positivity
      · rw [hval, hrnd]
        rw [div_le_one (by norm_num)]
        exact_mod_cast hfloor1
  refine ⟨hmain, ?_⟩
  have hs : sourcesSupporting
      ⟨[⟨1, ("S1").data, ("active").data⟩, ⟨2, ("S2").data, ("active").data⟩,
        ⟨3, ("S3").data, ("active").data⟩, ⟨4, ("S4").data, ("active").data⟩],
       [⟨10, 1, ("I1").data, ("T1").data, ("U1").data, none⟩,
        ⟨11, 2, ("I2").data, ("T2").data, ("U2").data, none⟩],
       [⟨1, 10, ("T").data, none⟩, ⟨2, 11, ("T").data, none⟩]⟩ (("T").data) = 2 := by
    decide
  have ht : totalActiveSources
      ⟨[⟨1, ("S1").data, ("active").data⟩, ⟨2, ("S2").data, ("active").data⟩,
        ⟨3, ("S3").data, ("active").data⟩, ⟨4, ("S4").data, ("active").data⟩],
       [⟨10, 1, ("I1").data, ("T1").data, ("U1").data, none⟩,
        ⟨11, 2, ("I2").data, ("T2").data, ("U2").data, none⟩],
       [⟨1, 10, ("T").data, none⟩, ⟨2, 11, ("T").data, none⟩]⟩ = 4 := by
    decide
  unfold support_ratio
  rw [hs, ht]
  norm_num
  unfold roundHalfAwayFromZero
  rw [if_pos (by norm_num)]
  have hfl : ⌊(500 : ℚ) + 1 / 2⌋ = 500 := by
    rw [Int.floor_eq_iff]
    constructor
    · push_cast
      norm_num
    · push_cast
      norm_num
  rw [hfl]
  norm_num

end CrossSource
